import Mathlib

/-!
Verification development for the beagle notification dispatcher
(`pkg/delivery/delivery.go`) and the activity directory
(`src/server/monitoring/activity/service.go`).

The Go code is shallowly embedded: pure functions become Lean functions,
the side effects that the claims talk about (transport invocations and
listener invocations) are returned as explicit traces, the external
collaborators (HTTP request construction and the Transport) are supplied
as an explicit environment of oracle functions, and the abstract clock is
a natural number carried in the environment.  Go maps are embedded as
association lists in insertion order; map iteration order is not
observable by any statement proved here.  Strings are treated as their
character lists (the repository only ever builds ASCII payload keys, so
Go byte slicing coincides with character slicing).
-/

namespace Beagle

/-- Modelled from the spec: the peripheral data model lives in the
repository package `pkg/discovery/peripherals`, which is outside the
provided sources.  A peripheral has a concrete variant (generic, or
ibeacon with uuid/major/minor); `major` and `minor` are 16-bit unsigned
values, embedded as `Nat`. -/
inductive PVariant where
  | generic
  | ibeacon (uuid : String) (major minor : Nat)
deriving DecidableEq

/-- Modelled from the spec: the capability set of `peripherals.Peripheral`
is `UniqueKey`, `Kind`, `Proximity`, `Accuracy`.  The declared `kind` tag
is carried separately from the concrete variant, because the dispatcher
performs a defensive check that the two agree.  `accuracy` is a `float64`
in Go; it is embedded as an exact rational, which is faithful for every
value a float can hold. -/
structure Peripheral where
  uniqueKey : String
  kind : String
  proximity : String
  accuracy : ℚ
deriving DecidableEq

/-- Modelled from the spec: full peripheral value = capability record plus
its concrete variant. -/
structure PeripheralVal where
  base : Peripheral
  variant : PVariant
deriving DecidableEq

/-- The kind constant `peripherals.PERIPHERAL_IBEACON`. -/
def PERIPHERAL_IBEACON : String := "ibeacon"

/-- Modelled from the spec: `notification.Endpoint` with name, url,
method and a header map (embedded as an association list). -/
structure Endpoint where
  name : String
  url : String
  method : String
  headers : List (String × String)
deriving DecidableEq

/-- Modelled from the spec: `notification.Subscriber`; the endpoint is
optional (`nil` in Go becomes `none`). -/
structure Subscriber where
  name : String
  endpoint : Option Endpoint
deriving DecidableEq

/-- Modelled from the spec: `notification.Message` as consumed by the
dispatcher: event name, target name, one (possibly nil) peripheral, and
an ordered subscriber list. -/
structure Message where
  eventName : String
  targetName : String
  peripheral : Option PeripheralVal
  subscribers : List Subscriber
deriving DecidableEq

/-- Delivery errors produced along the single-delivery path of
`Sender.sendSingle`.  The Go code builds them as wrapped string errors;
here each error class is a constructor.  `queryPanic` models the runtime
panic of the out-of-range slice in `Sender.encode` on an empty mapping. -/
inductive DeliveryError where
  | missedPeripheral
  | unableToSerialize (key : String)
  | emptyEndpointUrl
  | requestCreation (msg : String)
  | queryPanic
  | transport (msg : String)
deriving DecidableEq

/-- The outbound HTTP request as observed by the Transport: method, the
endpoint url (kept opaque), the raw query string set by the non-POST
branch, the header list, and the optional body. -/
structure Request where
  method : String
  url : String
  rawQuery : String
  headers : List (String × String)
  body : Option String
deriving DecidableEq

/-- Environment of external collaborators: the abstract clock, the
oracle deciding whether `http.NewRequest` fails for a given method and
url (returning the error message when it does), and the Transport
(`Transport.Do`), which returns an error message or `none` for success. -/
structure Env where
  now : Nat
  newRequestErr : String → String → Option String
  transportErr : Request → Option String

/-- Embedding of `strings.ToUpper` as the per-character uppercase map
(the repository configures ASCII HTTP method names, where Go's Unicode
mapping and the per-character one agree). -/
def upper (s : String) : String :=
  String.mk (s.data.map Char.toUpper)

/-- Decimal digit character, used by the fixed-point formatter. -/
def digitChar (n : Nat) : Char := Char.ofNat (48 + n)

/-- The six fraction digits of `n % 1000000`, most significant first.
Together with `formatFloat6` this embeds
`strconv.FormatFloat(x, 'f', 6, 64)`: a fixed-point rendering with
exactly six fractional digits. -/
def frac6 (n : Nat) : String :=
  String.mk [digitChar (n / 100000 % 10), digitChar (n / 10000 % 10),
    digitChar (n / 1000 % 10), digitChar (n / 100 % 10),
    digitChar (n / 10 % 10), digitChar (n % 10)]

/-- Magnitude of the value rounded to six decimal places, in millionths:
the nearest natural number to `|q| * 1000000` (ties away from zero),
computed on the reduced fraction with natural division. -/
def scale6 (q : ℚ) : Nat :=
  (q.num.natAbs * 2000000 + q.den) / (2 * q.den)

/-- Embedding of `strconv.FormatFloat(x, 'f', 6, 64)`: round the value to
six decimal places and print sign, integer part, a dot, and exactly six
fraction digits. -/
def formatFloat6 (q : ℚ) : String :=
  let m : Nat := scale6 q
  (if q.num < 0 then "-" else "") ++ toString (m / 1000000) ++ "." ++ frac6 (m % 1000000)

/-- Embedding of `Sender.serializePeripheral`: a nil peripheral fails;
otherwise the mapping gets `name`, `kind`, `proximity` and `accuracy`
(six fractional digits), and when the declared kind is `ibeacon` the
concrete variant must be the ibeacon type (else the defensive check
fails) and `uuid`, `major`, `minor` are added as decimal strings. -/
def serializePeripheral (name : String) (p : Option PeripheralVal) :
    Except DeliveryError (List (String × String)) :=
  match p with
  | none => .error .missedPeripheral
  | some p =>
    let serialized : List (String × String) :=
      [("name", name), ("kind", p.base.kind), ("proximity", p.base.proximity),
       ("accuracy", formatFloat6 p.base.accuracy)]
    if p.base.kind = PERIPHERAL_IBEACON then
      match p.variant with
      | .ibeacon uuid major minor =>
        .ok (serialized ++
          [("uuid", uuid), ("major", toString major), ("minor", toString minor)])
      | .generic => .error (.unableToSerialize p.base.uniqueKey)
    else
      .ok serialized

/-- Hexadecimal digit character (uppercase), for percent-escaping. -/
def hexDigit (n : Nat) : Char :=
  if n < 10 then Char.ofNat (48 + n) else Char.ofNat (55 + n)

/-- Embedding of `url.QueryEscape` on one character: alphanumerics and
`-._~` are kept, a space becomes `+`, anything else becomes `%XX`
(the repository only escapes ASCII payload keys, so per-character
escaping coincides with the per-byte escaping Go performs). -/
def queryEscapeChar (c : Char) : String :=
  if c.isAlphanum || c = '-' || c = '_' || c = '.' || c = '~' then
    String.singleton c
  else if c = ' ' then
    "+"
  else
    String.mk ['%', hexDigit (c.toNat / 16 % 16), hexDigit (c.toNat % 16)]

/-- Embedding of `url.QueryEscape`. -/
def queryEscape (s : String) : String :=
  String.join (s.data.map queryEscapeChar)

/-- One `key=value` fragment of the query string, as written by the loop
body of `Sender.encode`: the key percent-escaped, the value verbatim
(Go prints it with an unescaping `Sprintf`). -/
def pairStr (kv : String × String) : String :=
  queryEscape kv.1 ++ "=" ++ kv.2

/-- The raw buffer built by the loop of `Sender.encode`: every entry
contributes `key=value&`. -/
def encodeRaw : List (String × String) → String
  | [] => ""
  | kv :: rest => pairStr kv ++ "&" ++ encodeRaw rest

/-- Embedding of `Sender.encode`: build the buffer and slice off the last
byte (`str[0 : len(str)-1]`).  When the buffer is empty the Go slice
bound is `-1`, which panics at runtime; that panic is modelled as
`none`. -/
def encode (data : List (String × String)) : Option String :=
  let str := encodeRaw data
  if str.data.isEmpty then none else some (String.mk str.data.dropLast)

/-- JSON string escaping for quotes and backslashes (the model of
`encoding/json` string output; the repository never sends payload values
needing further escapes on the paths the claims evaluate). -/
def jsonEscapeChar (c : Char) : String :=
  if c = '"' then "\\\"" else if c = '\\' then "\\\\" else String.singleton c

/-- A JSON string literal. -/
def jsonQuote (s : String) : String :=
  "\"" ++ String.join (s.data.map jsonEscapeChar) ++ "\""

/-- Insertion into a key-sorted association list, for the key ordering
`encoding/json.Marshal` applies to map keys. -/
def insertByKey (kv : String × String) : List (String × String) → List (String × String)
  | [] => [kv]
  | h :: t => if kv.1 < h.1 then kv :: h :: t else h :: insertByKey kv t

/-- Sort an association list by key, as `encoding/json.Marshal` does with
map keys. -/
def sortByKey : List (String × String) → List (String × String)
  | [] => []
  | h :: t => insertByKey h (sortByKey t)

/-- Embedding of `json.Marshal` on the string-valued field mapping: a
JSON object with the keys in sorted order.  On string-valued maps
`Marshal` never fails, so this is total. -/
def jsonEncode (m : List (String × String)) : String :=
  "\x7b" ++
    String.intercalate "," ((sortByKey m).map (fun kv => jsonQuote kv.1 ++ ":" ++ jsonQuote kv.2)) ++
    "\x7d"

/-- A token character of an HTTP header field name, as accepted by
`validHeaderFieldByte` in net/textproto: alphanumerics and the fifteen
specials of the RFC 7230 token alphabet, matched here by code point. -/
def isTokenChar (c : Char) : Bool :=
  c.isAlphanum ||
  [33, 35, 36, 37, 38, 39, 42, 43, 45, 46, 94, 95, 96, 124, 126].contains c.toNat

/-- ASCII uppercase mapping of one character, as the canonicalization
walk of net/textproto performs it. -/
def asciiUpper (c : Char) : Char :=
  if 97 ≤ c.toNat ∧ c.toNat ≤ 122 then Char.ofNat (c.toNat - 32) else c

/-- ASCII lowercase mapping of one character, as the canonicalization
walk of net/textproto performs it. -/
def asciiLower (c : Char) : Char :=
  if 65 ≤ c.toNat ∧ c.toNat ≤ 90 then Char.ofNat (c.toNat + 32) else c

/-- The canonicalization walk of `textproto.canonicalMIMEHeaderKey`:
the letter that starts the key or follows a hyphen is uppercased, every
other letter is lowercased. -/
def canonicalChars : Bool → List Char → List Char
  | _, [] => []
  | up, c :: rest =>
    let d := if up then asciiUpper c else asciiLower c
    d :: canonicalChars (d == '-') rest

/-- Embedding of `textproto.CanonicalMIMEHeaderKey`, which
`http.Header.Set` applies to its key: a key made of valid token
characters is canonicalized case-insensitively; a key containing an
invalid character is returned unchanged. -/
def canonicalKey (s : String) : String :=
  if s.data.all isTokenChar then String.mk (canonicalChars true s.data) else s

/-- Embedding of `http.Header.Set`: the key is canonicalized
case-insensitively through `CanonicalMIMEHeaderKey`, any entry under
the canonical key is replaced, and the new value is recorded. -/
def setHeader (hs : List (String × String)) (k v : String) : List (String × String) :=
  let ck := canonicalKey k
  hs.filter (fun kv => kv.1 != ck) ++ [(ck, v)]

/-- Application of all endpoint-configured headers, after the defaults
(the loop over `endpoint.Headers` in `Sender.sendSingle`). -/
def applyHeaders (base : List (String × String)) (hs : List (String × String)) :
    List (String × String) :=
  hs.foldl (fun acc kv => setHeader acc kv.1 kv.2) base

/-- Request assembly of `Sender.sendSingle` after serialization and the
nil-endpoint check: reject an empty url, build the request with the
upper-cased method through the `http.NewRequest` oracle, then for POST
set the JSON content type and body, otherwise encode the query string;
finally apply the endpoint headers.  The Go block `if req == nil` after
request construction is dead code (`http.NewRequest` returns a non-nil
request exactly when it returns no error) and is not modelled. -/
def mkRequest (env : Env) (serialized : List (String × String)) (e : Endpoint) :
    Except DeliveryError Request :=
  if e.url = "" then .error .emptyEndpointUrl
  else
    let method := upper e.method
    match env.newRequestErr method e.url with
    | some msg => .error (.requestCreation msg)
    | none =>
      let req : Request :=
        { method := method, url := e.url, rawQuery := "", headers := [], body := none }
      if method = "POST" then
        let req :=
          { req with
            headers := setHeader req.headers "Content-Type" "application/json",
            body := some (jsonEncode serialized) }
        .ok { req with headers := applyHeaders req.headers e.headers }
      else
        match encode serialized with
        | none => .error .queryPanic
        | some query =>
          let req := { req with rawQuery := query }
          .ok { req with headers := applyHeaders req.headers e.headers }

/-- Embedding of `Sender.sendSingle`.  The result is the error returned
to `sendBatch` (so `delivered` is its `isNone`), paired with the list of
Transport invocations the call performed (empty or one request). -/
def sendSingle (env : Env) (name : String) (p : Option PeripheralVal) (sub : Subscriber) :
    Option DeliveryError × List Request :=
  match serializePeripheral name p with
  | .error e => (some e, [])
  | .ok serialized =>
    match sub.endpoint with
    | none => (none, [])
    | some e =>
      match mkRequest env serialized e with
      | .error err => (some err, [])
      | .ok req => ((env.transportErr req).map .transport, [req])

/-- A delivery outcome, `delivery.Event` in Go. -/
structure Event where
  name : String
  timestamp : Nat
  targetName : String
  subscriber : Subscriber
  delivered : Bool
  error : Option DeliveryError
deriving DecidableEq

/-- The observable effects of one batch: the outcomes in production
order, the Transport invocations in order, and the listener invocations
as (listener identity, outcome) pairs in invocation order. -/
structure BatchResult where
  events : List Event
  transportCalls : List Request
  listenerCalls : List (Nat × Event)
deriving DecidableEq

/-- The subscriber loop of `Sender.sendBatch`, sequential in list order:
for each subscriber run the single delivery, record an outcome whose
`delivered` flag is `err == nil`, and accumulate the Transport calls. -/
def batchLoop (env : Env) (eventName targetName : String) (p : Option PeripheralVal) :
    List Subscriber → List Event × List Request
  | [] => ([], [])
  | sub :: rest =>
    let r := sendSingle env targetName p sub
    let tail := batchLoop env eventName targetName p rest
    ({ name := eventName, timestamp := env.now, targetName := targetName,
       subscriber := sub, delivered := r.1.isNone, error := r.1 } :: tail.1,
     r.2 ++ tail.2)

/-- Embedding of `Sender.emit`: nothing happens on an empty batch;
otherwise every registered listener (identified by its function pointer,
embedded as a `Nat`) is invoked once per outcome, listeners in
registration order, outcomes in batch order. -/
def emit (listeners : List Nat) (events : List Event) : List (Nat × Event) :=
  if events.isEmpty then []
  else listeners.flatMap (fun l => events.map (fun e => (l, e)))

/-- Embedding of `Sender.sendBatch`: run the subscriber loop, then emit
the full batch to the listeners.  The `listenerCalls` field being
computed from the completed `events` list captures that listeners run
only after every subscriber has been processed. -/
def sendBatch (env : Env) (listeners : List Nat) (msg : Message) : BatchResult :=
  let r := batchLoop env msg.eventName msg.targetName msg.peripheral msg.subscribers
  { events := r.1, transportCalls := r.2, listenerCalls := emit listeners r.1 }

/-- Embedding of `Sender.isSupportedEventName`. -/
def isSupportedEventName (name : String) : Bool :=
  if name = "" then false else name == "found" || name == "lost"

/-- Embedding of `Sender.Send`: validation happens synchronously; on
success the batch runs (in Go, on its own goroutine) and the caller gets
no error.  The pair returned here is the caller-visible error and the
batch effects; a rejected message produces no effects at all. -/
def send (env : Env) (listeners : List Nat) (msg : Message) : Option String × BatchResult :=
  if isSupportedEventName msg.eventName then (none, sendBatch env listeners msg)
  else (some ("unsupported event name " ++ msg.eventName), ⟨[], [], []⟩)

/-- The index retained by the scan loop of `Sender.RemoveEventListener`:
the loop overwrites `idx` on every pointer match, so the retained index
is the index of the last match, or `-1` when there is none.  This
recursion computes exactly that value. -/
def findLastIdx (p : Nat) : List Nat → Int
  | [] => -1
  | x :: xs =>
    let r := findLastIdx p xs
    if r ≥ 0 then r + 1 else if x = p then 0 else -1

/-- Embedding of `Sender.RemoveEventListener`: listeners are compared by
function-pointer identity (embedded as `Nat`); a `nil` argument removes
nothing; otherwise the entry at the retained index is removed
(`append(listeners[:idx], listeners[idx+1:]...)`). -/
def removeEventListener (fn : Option Nat) (listeners : List Nat) : Bool × List Nat :=
  match fn with
  | none => (false, listeners)
  | some p =>
    let idx := findLastIdx p listeners
    if idx < 0 then (false, listeners)
    else (true, listeners.take idx.toNat ++ listeners.drop (idx.toNat + 1))

/-- Modelled from the spec: the `activity.Record` type is outside the
provided sources; its fields are exactly those written by the composite
literal in `Service.Use`: key, kind, proximity, registered flag, and the
last-seen timestamp (embedded as the abstract clock value). -/
structure Record where
  key : String
  kind : String
  proximity : String
  registered : Bool
  time : Nat
deriving DecidableEq

/-- Go map assignment `m[k] = v` on the association-list embedding:
replace the entry for `k` in place, or append a fresh one. -/
def mapInsert : List (String × α) → String → α → List (String × α)
  | [], k, v => [(k, v)]
  | (k', v') :: rest, k, v =>
    if k' = k then (k, v) :: rest else (k', v') :: mapInsert rest k v

/-- Go map deletion `delete(m, k)` on the association-list embedding. -/
def mapErase : List (String × α) → String → List (String × α)
  | [], _ => []
  | (k', v') :: rest, k =>
    if k' = k then rest else (k', v') :: mapErase rest k

/-- Go map lookup `m[k]` on the association-list embedding. -/
def mapLookup : List (String × α) → String → Option α
  | [], _ => none
  | (k', v) :: rest, k => if k' = k then some v else mapLookup rest k

/-- The defining invariant of the association-list embedding of a Go
map: no key occurs twice. -/
def keysNodup (l : List (String × α)) : Prop :=
  (l.map Prod.fst).Nodup

/-- The "found" callback registered by `Service.Use`: upsert a `Record`
keyed by the unique key of the peripheral, with kind and proximity
copied from the peripheral, `registered` copied verbatim, and the
current time. -/
def foundHandler (p : Peripheral) (registered : Bool) (now : Nat)
    (records : List (String × Record)) : List (String × Record) :=
  mapInsert records p.uniqueKey
    { key := p.uniqueKey, kind := p.kind, proximity := p.proximity,
      registered := registered, time := now }

/-- The "lost" callback registered by `Service.Use`: delete the record
for the unique key of the peripheral, if present. -/
def lostHandler (p : Peripheral) (records : List (String × Record)) :
    List (String × Record) :=
  mapErase records p.uniqueKey

/-- Embedding of `Service.Quantity`: `len(s.records)`. -/
def quantity (records : List (String × Record)) : Nat :=
  records.length

/-- The loop of `Service.GetRecords` over the snapshot list.  The Go
body reads `list = append(result, &item)`: the appended slice is
assigned to the variable `list` (whose range snapshot the loop keeps
iterating), while `result` itself is never extended; the recursion
therefore carries `result` unchanged through every branch, and the
early `break` fires only when `len(result)` already equals the intended
result size. -/
def getRecordsLoop (resultSize skip : Int) :
    List Record → Int → List Record → List Record
  | [], _, result => result
  | _record :: rest, idx, result =>
    let num := idx + 1
    if skip = 0 ∨ skip > num then
      if (result.length : Int) = resultSize then result
      else getRecordsLoop resultSize skip rest (idx + 1) result
    else getRecordsLoop resultSize skip rest (idx + 1) result

/-- Embedding of `Service.GetRecords`: compute the intended result size
(`take`, or the map size when `take` is zero), snapshot the map values
into a list, and run the loop.  The argument `record` of the loop body
is dropped because the Go body never stores it into `result`. -/
def getRecords (records : List (String × Record)) (take skip : Int) : List Record :=
  let resultSize := if take = 0 then (records.length : Int) else take
  let list := records.map Prod.snd
  getRecordsLoop resultSize skip list 0 []

/-- Concrete rational 0, as an explicit reduced fraction. -/
def qZero : ℚ := ⟨0, 1, by decide, by decide⟩

/-- Concrete rational 3/2, as an explicit reduced fraction. -/
def qThreeHalves : ℚ := ⟨3, 2, by decide, by decide⟩

/-- A generic peripheral, used as a concrete input. -/
def genericPeripheral : PeripheralVal :=
  ⟨⟨"g1", "generic", "near", qZero⟩, .generic⟩

/-- An ibeacon peripheral (uuid U1, major 1, minor 2, accuracy 1.5),
used as a concrete input. -/
def ibeaconPeripheral : PeripheralVal :=
  ⟨⟨"ib1", "ibeacon", "near", qThreeHalves⟩, .ibeacon "U1" 1 2⟩

/-- A peripheral whose declared kind is ibeacon but whose concrete
variant is generic, used as a concrete input for the defensive check. -/
def mismatchPeripheral : PeripheralVal :=
  ⟨⟨"bad1", "ibeacon", "far", qZero⟩, .generic⟩

/-- An environment where request construction and the Transport always
succeed. -/
def okEnv : Env := ⟨0, fun _ _ => none, fun _ => none⟩

/-- An environment where the Transport always fails. -/
def failEnv : Env := ⟨0, fun _ _ => none, fun _ => some "boom"⟩

/-- A subscriber with no endpoint. -/
def subNoEndpoint : Subscriber := ⟨"s0", none⟩

/-- A POST endpoint whose configured headers override Content-Type
through a lowercase key (canonicalized by `http.Header.Set`). -/
def postOverrideEndpoint : Endpoint :=
  ⟨"e1", "http://x", "post", [("content-type", "text/plain")]⟩

/-- The subscriber for `postOverrideEndpoint`. -/
def subPostOverride : Subscriber := ⟨"s1", some postOverrideEndpoint⟩

/-- A plain GET endpoint. -/
def getEndpoint : Endpoint := ⟨"e2", "http://y", "get", []⟩

/-- The subscriber for `getEndpoint`. -/
def subGet : Subscriber := ⟨"s2", some getEndpoint⟩

/-- An endpoint with an empty url. -/
def emptyUrlEndpoint : Endpoint := ⟨"e3", "", "get", []⟩

/-- The subscriber for `emptyUrlEndpoint`. -/
def subEmptyUrl : Subscriber := ⟨"s3", some emptyUrlEndpoint⟩

/-- A pre-existing directory record for key K. -/
def oldRecord : Record := ⟨"K", "oldkind", "far", false, 1⟩

/-- A peripheral sighting for key K with fresh attributes. -/
def pFound : Peripheral := ⟨"K", "newkind", "near", qZero⟩

/-- A supported message with two subscribers, used as a concrete input. -/
def msgFound : Message := ⟨"found", "t", some genericPeripheral, [subGet, subNoEndpoint]⟩

/-- The field mapping produced for `ibeaconPeripheral` under target name
t. -/
def mIbeacon : List (String × String) :=
  [("name", "t"), ("kind", "ibeacon"), ("proximity", "near"),
   ("accuracy", "1.500000"), ("uuid", "U1"), ("major", "1"), ("minor", "2")]

/-- The field mapping produced for `genericPeripheral` under target name
t. -/
def mGeneric : List (String × String) :=
  [("name", "t"), ("kind", "generic"), ("proximity", "near"), ("accuracy", "0.000000")]

/-- Agreement of the declared kind tag with the concrete variant: an
ibeacon variant must be declared "ibeacon", a generic variant must not
be. -/
def kindMatchesVariant (p : PeripheralVal) : Bool :=
  match p.variant with
  | .ibeacon _ _ _ => p.base.kind == PERIPHERAL_IBEACON
  | .generic => p.base.kind != PERIPHERAL_IBEACON

/-- The character sequence of fragments joined by a single ampersand
with no trailing separator; the statement of the query-string layout
the spec describes. -/
def joinAmp : List String → List Char
  | [] => []
  | [s] => s.data
  | s :: r :: rest => s.data ++ '&' :: joinAmp (r :: rest)

/-- The outbound request built for `genericPeripheral` through
`getEndpoint`, used as a concrete input. -/
def reqGet : Request :=
  ⟨"GET", "http://y", "name=t&kind=generic&proximity=near&accuracy=0.000000", [], none⟩

theorem getRecordsLoop_eq_result (rs sk : Int) (l : List Record) :
    ∀ (idx : Int) (res : List Record), getRecordsLoop rs sk l idx res = res := by
  induction l with
  | nil => intro idx res; rfl
  | cons r rest ih =>
    intro idx res
    simp only [getRecordsLoop]
    split
    · split
      · rfl
      · exact ih (idx + 1) res
    · exact ih (idx + 1) res

/-- C1: false of the code.  `GetRecords` is meant to return up to `take`
records after skipping `skip`, but the loop body assigns the appended
slice to `list` instead of `result` (`list = append(result, &item)`),
so `result` is never extended and every call returns the empty list,
whatever the directory holds and whatever the window is. -/
theorem c1_getRecords_empty (records : List (String × Record)) (take skip : Int) :
    getRecords records take skip = [] :=
  getRecordsLoop_eq_result _ _ _ 0 []

theorem findLastIdx_eq_neg_one (p : Nat) (l : List Nat) (h : p ∉ l) :
    findLastIdx p l = -1 := by
  induction l with
  | nil => rfl
  | cons x xs ih =>
    simp only [List.mem_cons, not_or] at h
    simp only [findLastIdx, ih h.2]
    norm_num
    exact fun hx => absurd hx.symm h.1

theorem findLastIdx_nonneg (p : Nat) (l : List Nat) (h : p ∈ l) :
    0 ≤ findLastIdx p l := by
  induction l with
  | nil => cases h
  | cons x xs ih =>
    simp only [findLastIdx]
    rcases List.mem_cons.mp h with hx | hxs
    · split
      · omega
      · simp [hx]
    · have := ih hxs
      split
      · omega
      · omega

theorem remove_at_last_match (p : Nat) (l : List Nat) (h : p ∈ l) :
    l.take (findLastIdx p l).toNat ++ l.drop ((findLastIdx p l).toNat + 1) =
      (l.reverse.erase p).reverse := by
  induction l with
  | nil => cases h
  | cons x xs ih =>
    by_cases hxs : p ∈ xs
    · have hr : 0 ≤ findLastIdx p xs := findLastIdx_nonneg p xs hxs
      have hidx : findLastIdx p (x :: xs) = findLastIdx p xs + 1 := by
        simp only [findLastIdx]
        split
        · rfl
        · omega
      have htn : (findLastIdx p xs + 1).toNat = (findLastIdx p xs).toNat + 1 := by omega
      rw [hidx, htn]
      simp only [List.take_succ_cons, List.drop_succ_cons, List.cons_append]
      rw [ih hxs]
      have hmem : p ∈ xs.reverse := List.mem_reverse.mpr hxs
      rw [List.reverse_cons, List.erase_append_left _ hmem, List.reverse_append]
      simp
    · have hx : x = p := by
        rcases List.mem_cons.mp h with hx | hxs'
        · exact hx.symm
        · exact absurd hxs' hxs
      have hidx : findLastIdx p (x :: xs) = 0 := by
        simp only [findLastIdx, findLastIdx_eq_neg_one p xs hxs]
        norm_num [hx]
      rw [hidx]
      simp only [Int.toNat_zero, List.take_zero, List.drop_succ_cons, List.drop_zero,
        List.nil_append]
      have hnmem : p ∉ xs.reverse := fun hc => hxs (List.mem_reverse.mp hc)
      rw [List.reverse_cons, List.erase_append_right _ hnmem, hx]
      simp

/-- C3 (amended): `RemoveEventListener(fn)` with a nil `fn` removes
nothing and returns false; otherwise it removes the LAST listener whose
identity matches `fn` (the scan overwrites the retained index on every
match) and returns true, and removes nothing and returns false when no
identity matches. -/
theorem c3_remove_last_match (l : List Nat) :
    removeEventListener none l = (false, l) ∧
    ∀ p, removeEventListener (some p) l =
      if p ∈ l then (true, (l.reverse.erase p).reverse) else (false, l) := by
  refine ⟨rfl, fun p => ?_⟩
  by_cases h : p ∈ l
  · have h0 : 0 ≤ findLastIdx p l := findLastIdx_nonneg p l h
    simp only [removeEventListener, h, if_true]
    rw [if_neg (by omega)]
    rw [remove_at_last_match p l h]
  · simp only [removeEventListener, h, if_false]
    rw [findLastIdx_eq_neg_one p l h]
    norm_num

/-- C3, counterexample to the claim as stated: with the registry
`[7, 3, 7]` (the same listener identity `7` registered at positions 0
and 2, a distinct listener `3` between them), removing `7` yields
`[7, 3]` — the LAST match was removed — whereas removing the FIRST
match, as the claim states, would yield `[3, 7]`. -/
theorem c3_counterexample :
    removeEventListener (some 7) [7, 3, 7] = (true, [7, 3]) ∧
    removeEventListener (some 7) [7, 3, 7] ≠ (true, [3, 7]) := by
  decide

theorem mem_keys_mapInsert {l : List (String × α)} {k x : String} {v : α}
    (h : x ∈ (mapInsert l k v).map Prod.fst) : x ∈ l.map Prod.fst ∨ x = k := by
  induction l with
  | nil =>
    simp only [mapInsert, List.map_cons, List.map_nil, List.mem_singleton] at h
    exact Or.inr h
  | cons kv rest ih =>
    obtain ⟨k', v'⟩ := kv
    by_cases hk : k' = k
    · simp only [mapInsert, if_pos hk] at h
      simp only [List.map_cons, List.mem_cons] at h ⊢
      rcases h with h | h
      · exact Or.inr h
      · exact Or.inl (Or.inr h)
    · simp only [mapInsert, if_neg hk, List.map_cons, List.mem_cons] at h ⊢
      rcases h with h | h
      · exact Or.inl (Or.inl h)
      · rcases ih h with h' | h'
        · exact Or.inl (Or.inr h')
        · exact Or.inr h'

theorem keysNodup_mapInsert {l : List (String × α)} (k : String) (v : α)
    (h : keysNodup l) : keysNodup (mapInsert l k v) := by
  induction l with
  | nil => simp [keysNodup, mapInsert]
  | cons kv rest ih =>
    obtain ⟨k', v'⟩ := kv
    simp only [keysNodup, List.map_cons, List.nodup_cons] at h
    by_cases hk : k' = k
    · simp only [keysNodup, mapInsert, if_pos hk, List.map_cons, List.nodup_cons]
      exact ⟨hk ▸ h.1, h.2⟩
    · simp only [keysNodup, mapInsert, if_neg hk, List.map_cons, List.nodup_cons]
      refine ⟨fun hc => ?_, ih h.2⟩
      rcases mem_keys_mapInsert hc with h' | h'
      · exact h.1 h'
      · exact hk h'

theorem mapLookup_mapInsert_self (l : List (String × α)) (k : String) (v : α) :
    mapLookup (mapInsert l k v) k = some v := by
  induction l with
  | nil => simp [mapInsert, mapLookup]
  | cons kv rest ih =>
    obtain ⟨k', v'⟩ := kv
    by_cases hk : k' = k
    · simp [mapInsert, if_pos hk, mapLookup]
    · simp [mapInsert, if_neg hk, mapLookup, hk, ih]

theorem mapLookup_mapInsert_ne (l : List (String × α)) {k k' : String} (v : α)
    (h : k' ≠ k) : mapLookup (mapInsert l k v) k' = mapLookup l k' := by
  induction l with
  | nil =>
    simp only [mapInsert, mapLookup]
    rw [if_neg (fun hc => h hc.symm)]
  | cons kv rest ih =>
    obtain ⟨a, b⟩ := kv
    by_cases ha : a = k
    · subst ha
      simp only [mapInsert, if_pos rfl, mapLookup]
      rw [if_neg (fun hc => h hc.symm), if_neg (fun hc => h hc.symm)]
    · simp only [mapInsert, if_neg ha, mapLookup]
      split
      · rfl
      · exact ih

theorem keys_mapErase_sublist (l : List (String × α)) (k : String) :
    List.Sublist ((mapErase l k).map Prod.fst) (l.map Prod.fst) := by
  induction l with
  | nil => simp [mapErase]
  | cons kv rest ih =>
    obtain ⟨a, b⟩ := kv
    by_cases ha : a = k
    · simp only [mapErase, if_pos ha, List.map_cons]
      exact List.sublist_cons_self _ _
    · simp only [mapErase, if_neg ha, List.map_cons]
      exact ih.cons₂ a

theorem keysNodup_mapErase {l : List (String × α)} (k : String)
    (h : keysNodup l) : keysNodup (mapErase l k) :=
  List.Nodup.sublist (keys_mapErase_sublist l k) h

theorem mapLookup_eq_none_of_not_mem {l : List (String × α)} {k : String}
    (h : k ∉ l.map Prod.fst) : mapLookup l k = none := by
  induction l with
  | nil => rfl
  | cons kv rest ih =>
    obtain ⟨a, b⟩ := kv
    simp only [List.map_cons, List.mem_cons, not_or] at h
    simp only [mapLookup]
    rw [if_neg (fun hc => h.1 hc.symm)]
    exact ih h.2

theorem mapLookup_mapErase_self {l : List (String × α)} (k : String)
    (h : keysNodup l) : mapLookup (mapErase l k) k = none := by
  induction l with
  | nil => rfl
  | cons kv rest ih =>
    obtain ⟨a, b⟩ := kv
    simp only [keysNodup, List.map_cons, List.nodup_cons] at h
    by_cases ha : a = k
    · simp only [mapErase, if_pos ha]
      exact mapLookup_eq_none_of_not_mem (ha ▸ h.1)
    · simp only [mapErase, if_neg ha, mapLookup, if_neg ha]
      exact ih h.2

theorem mapLookup_mapErase_ne (l : List (String × α)) {k k' : String}
    (h : k' ≠ k) : mapLookup (mapErase l k) k' = mapLookup l k' := by
  induction l with
  | nil => rfl
  | cons kv rest ih =>
    obtain ⟨a, b⟩ := kv
    by_cases ha : a = k
    · subst ha
      have h1 : mapErase ((a, b) :: rest) a = rest := by
        unfold mapErase
        exact if_pos rfl
      rw [h1]
      simp only [mapLookup]
      rw [if_neg (Ne.symm h)]
    · simp only [mapErase, if_neg ha, mapLookup]
      split
      · rfl
      · exact ih

/-- C9: on a directory state whose key set is duplicate-free, the
"found" callback is an unconditional upsert (the looked-up record for
the key of the peripheral afterwards carries exactly the kind and
proximity of the peripheral, the registered flag verbatim and the
current time, whatever was there before; all other keys are untouched),
the "lost" callback is an unconditional delete-if-present, both
callbacks preserve the no-duplicate-keys invariant, and `Quantity`
returns the number of records. -/
theorem c9_directory_invariants (recs : List (String × Record)) (p : Peripheral)
    (reg : Bool) (now : Nat) (h : keysNodup recs) :
    keysNodup (foundHandler p reg now recs) ∧
    keysNodup (lostHandler p recs) ∧
    mapLookup (foundHandler p reg now recs) p.uniqueKey =
      some { key := p.uniqueKey, kind := p.kind, proximity := p.proximity,
             registered := reg, time := now } ∧
    (∀ k, k ≠ p.uniqueKey →
      mapLookup (foundHandler p reg now recs) k = mapLookup recs k) ∧
    mapLookup (lostHandler p recs) p.uniqueKey = none ∧
    (∀ k, k ≠ p.uniqueKey → mapLookup (lostHandler p recs) k = mapLookup recs k) ∧
    quantity recs = recs.length := by
  refine ⟨keysNodup_mapInsert _ _ h, keysNodup_mapErase _ h,
    mapLookup_mapInsert_self _ _ _, fun k hk => mapLookup_mapInsert_ne _ _ hk,
    mapLookup_mapErase_self _ h, fun k hk => mapLookup_mapErase_ne _ hk, rfl⟩

/-- C9, witness: the invariants applied to a directory already holding a
record for key K and a fresh sighting of K. -/
theorem c9_directory_invariants_witness :
    keysNodup (foundHandler pFound true 5 [("K", oldRecord)]) ∧
    keysNodup (lostHandler pFound [("K", oldRecord)]) ∧
    mapLookup (foundHandler pFound true 5 [("K", oldRecord)]) pFound.uniqueKey =
      some { key := pFound.uniqueKey, kind := pFound.kind,
             proximity := pFound.proximity, registered := true, time := 5 } ∧
    (∀ k, k ≠ pFound.uniqueKey →
      mapLookup (foundHandler pFound true 5 [("K", oldRecord)]) k =
        mapLookup [("K", oldRecord)] k) ∧
    mapLookup (lostHandler pFound [("K", oldRecord)]) pFound.uniqueKey = none ∧
    (∀ k, k ≠ pFound.uniqueKey →
      mapLookup (lostHandler pFound [("K", oldRecord)]) k =
        mapLookup [("K", oldRecord)] k) ∧
    quantity [("K", oldRecord)] = [("K", oldRecord)].length :=
  c9_directory_invariants [("K", oldRecord)] pFound true 5 (by simp [keysNodup])

/-- C2 (amended): the delivery error of one (message, subscriber) pair
is absent — so its outcome has `delivered = true` — iff the peripheral
serialized successfully and either the endpoint was absent (soft no-op)
or the endpoint was present, the request was built successfully (which
requires a non-empty url), and `Transport.Do` returned no error. -/
theorem c2_delivered_iff (env : Env) (name : String) (p : Option PeripheralVal)
    (sub : Subscriber) :
    (sendSingle env name p sub).1 = none ↔
      ∃ m, serializePeripheral name p = .ok m ∧
        (sub.endpoint = none ∨
          ∃ e req, sub.endpoint = some e ∧ mkRequest env m e = .ok req ∧
            env.transportErr req = none) := by
  cases hs : serializePeripheral name p with
  | error err => simp [sendSingle, hs]
  | ok m =>
    cases he : sub.endpoint with
    | none => simp [sendSingle, hs, he]
    | some e =>
      cases hm : mkRequest env m e with
      | error err => simp [sendSingle, hs, he, hm]
      | ok req => simp [sendSingle, hs, he, hm, Option.map_eq_none']

/-- C2, counterexample to the claim as stated: a subscriber with a nil
endpoint, under a transport that always fails, still produces a
delivered outcome (the single-delivery error is absent), although the
endpoint was not present — so delivered is not equivalent to
"Transport returned no error AND the endpoint was present and
well-formed". -/
theorem c2_counterexample :
    (sendSingle failEnv "t" (some genericPeripheral) subNoEndpoint).1 = none ∧
    subNoEndpoint.endpoint = none := by
  exact ⟨rfl, rfl⟩

/-- C6 (amended): provided the peripheral serializes successfully, a
subscriber with a nil endpoint yields no error (delivered = true), and a
subscriber whose endpoint has an empty url yields the EmptyEndpointUrl
error (delivered = false); in both cases the Transport is never invoked,
and the non-invocation holds even when serialization fails. -/
theorem c6_endpoint_cases (env : Env) (name : String) (p : Option PeripheralVal)
    (sub : Subscriber) :
    (sub.endpoint = none →
      (sendSingle env name p sub).2 = [] ∧
      ((serializePeripheral name p).isOk = true → (sendSingle env name p sub).1 = none)) ∧
    (∀ e, sub.endpoint = some e → e.url = "" →
      (sendSingle env name p sub).2 = [] ∧
      ((serializePeripheral name p).isOk = true →
        (sendSingle env name p sub).1 = some .emptyEndpointUrl)) := by
  constructor
  · intro hnone
    cases hs : serializePeripheral name p with
    | error err => simp [sendSingle, hs, Except.isOk, Except.toBool]
    | ok m => simp [sendSingle, hs, hnone]
  · intro e he hurl
    cases hs : serializePeripheral name p with
    | error err => simp [sendSingle, hs, Except.isOk, Except.toBool]
    | ok m => simp [sendSingle, hs, he, mkRequest, hurl]

/-- C6, counterexample to the claim as stated: with a nil peripheral,
the single-delivery path of a subscriber with a nil endpoint returns the
missed-peripheral error (serialization runs before the endpoint check),
so its outcome has delivered = false, refuting "returns no error". -/
theorem c6_counterexample :
    sendSingle okEnv "t" none subNoEndpoint = (some .missedPeripheral, []) := by
  exact rfl

/-- C6, witness: an empty-url endpoint with a serializable peripheral
gets the EmptyEndpointUrl error and no Transport call. -/
theorem c6_endpoint_cases_witness :
    (sendSingle okEnv "t" (some genericPeripheral) subEmptyUrl).2 = [] ∧
    (sendSingle okEnv "t" (some genericPeripheral) subEmptyUrl).1 =
      some .emptyEndpointUrl := by
  have h := (c6_endpoint_cases okEnv "t" (some genericPeripheral) subEmptyUrl).2
    emptyUrlEndpoint rfl rfl
  exact ⟨h.1, h.2 (by decide)⟩

/-- C7: a message whose event name is neither "found" nor "lost"
(including the empty string) is rejected synchronously with the
unsupported-event-name error, and its batch never runs: no outcome is
produced, no Transport call is made, and no listener is invoked. -/
theorem c7_unsupported_event (env : Env) (listeners : List Nat) (msg : Message)
    (h1 : msg.eventName ≠ "found") (h2 : msg.eventName ≠ "lost") :
    send env listeners msg =
      (some ("unsupported event name " ++ msg.eventName), ⟨[], [], []⟩) := by
  have hs : isSupportedEventName msg.eventName = false := by
    unfold isSupportedEventName
    split
    · rfl
    · simp only [Bool.or_eq_false_iff, beq_eq_false_iff_ne, ne_eq]
      exact ⟨h1, h2⟩
  unfold send
  rw [hs]
  simp

/-- C7, witness: the empty event name is rejected with no effects. -/
theorem c7_unsupported_event_witness :
    send okEnv [1] ⟨"", "t", some genericPeripheral, [subGet]⟩ =
      (some ("unsupported event name " ++ ""), ⟨[], [], []⟩) :=
  c7_unsupported_event okEnv [1] ⟨"", "t", some genericPeripheral, [subGet]⟩
    (by decide) (by decide)

theorem batchLoop_fst (env : Env) (en tn : String) (p : Option PeripheralVal) :
    ∀ subs : List Subscriber,
      (batchLoop env en tn p subs).1 =
        subs.map (fun sub =>
          { name := en, timestamp := env.now, targetName := tn, subscriber := sub,
            delivered := (sendSingle env tn p sub).1.isNone,
            error := (sendSingle env tn p sub).1 }) := by
  intro subs
  induction subs with
  | nil => rfl
  | cons s rest ih => simp [batchLoop, ih]

theorem emit_eq_flatMap (listeners : List Nat) (events : List Event) :
    emit listeners events =
      listeners.flatMap (fun l => events.map (fun e => (l, e))) := by
  unfold emit
  split
  · rename_i h
    have : events = [] := by
      cases events with
      | nil => rfl
      | cons e rest => simp [List.isEmpty] at h
    subst this
    simp
  · rfl

/-- C4: for every message with a supported event name, the batch
produces exactly one outcome per subscriber, in subscriber list order
(the outcomes project back onto the subscriber list), and the listener
invocations are exactly every registered listener, in registration
order, receiving the full batch of outcomes in batch order — computed
from the completed outcome list, which captures that listeners run only
after every subscriber has been processed. -/
theorem c4_batch_shape (env : Env) (listeners : List Nat) (msg : Message)
    (h : isSupportedEventName msg.eventName = true) :
    (send env listeners msg).1 = none ∧
    (send env listeners msg).2.events.length = msg.subscribers.length ∧
    (send env listeners msg).2.events.map Event.subscriber = msg.subscribers ∧
    (send env listeners msg).2.listenerCalls =
      listeners.flatMap
        (fun l => (send env listeners msg).2.events.map (fun e => (l, e))) := by
  have hsend : send env listeners msg = (none, sendBatch env listeners msg) := by
    unfold send
    rw [h]
    simp
  rw [hsend]
  refine ⟨rfl, ?_, ?_, ?_⟩
  · simp [sendBatch, batchLoop_fst]
  · simp only [sendBatch, batchLoop_fst, List.map_map]
    exact List.map_id msg.subscribers
  · simp [sendBatch, emit_eq_flatMap]

/-- C4, witness: a found message with two subscribers and two listeners
produces two outcomes and four listener invocations in order. -/
theorem c4_batch_shape_witness :
    (send okEnv [1, 2] msgFound).1 = none ∧
    (send okEnv [1, 2] msgFound).2.events.length = msgFound.subscribers.length ∧
    (send okEnv [1, 2] msgFound).2.events.map Event.subscriber = msgFound.subscribers ∧
    (send okEnv [1, 2] msgFound).2.listenerCalls =
      [1, 2].flatMap
        (fun l => (send okEnv [1, 2] msgFound).2.events.map (fun e => (l, e))) :=
  c4_batch_shape okEnv [1, 2] msgFound (by decide)

theorem frac6_length (n : Nat) : (frac6 n).length = 6 := rfl

theorem formatFloat6_shape (q : ℚ) :
    ∃ a b, formatFloat6 q = a ++ "." ++ b ∧ b.length = 6 :=
  ⟨(if q.num < 0 then "-" else "") ++ toString (scale6 q / 1000000),
   frac6 (scale6 q % 1000000), rfl, frac6_length _⟩

/-- C5: serialization of a nil peripheral fails; a declared ibeacon kind
over a non-ibeacon concrete variant fails the defensive check; and for
every peripheral whose declared kind matches its concrete variant the
mapping contains `name`, `kind`, `proximity` and `accuracy` (the
accuracy rendered with exactly six fractional digits), an ibeacon
variant additionally contributes `uuid`, `major` and `minor` as decimal
strings, a generic variant contributes none of those three keys, and
accuracy 1.5 renders as "1.500000". -/
theorem c5_serialize :
    (∀ name, serializePeripheral name none = .error .missedPeripheral) ∧
    (∀ name p, p.base.kind = PERIPHERAL_IBEACON → p.variant = .generic →
      serializePeripheral name (some p) = .error (.unableToSerialize p.base.uniqueKey)) ∧
    (∀ name p m, kindMatchesVariant p = true →
      serializePeripheral name (some p) = .ok m →
      ("name", name) ∈ m ∧ ("kind", p.base.kind) ∈ m ∧
      ("proximity", p.base.proximity) ∈ m ∧
      ("accuracy", formatFloat6 p.base.accuracy) ∈ m ∧
      (∃ a b, formatFloat6 p.base.accuracy = a ++ "." ++ b ∧ b.length = 6) ∧
      (∀ uuid major minor, p.variant = .ibeacon uuid major minor →
        ("uuid", uuid) ∈ m ∧ ("major", toString major) ∈ m ∧
        ("minor", toString minor) ∈ m) ∧
      (p.variant = .generic →
        "uuid" ∉ m.map Prod.fst ∧ "major" ∉ m.map Prod.fst ∧
        "minor" ∉ m.map Prod.fst)) ∧
    formatFloat6 qThreeHalves = "1.500000" := by
  refine ⟨fun name => rfl, fun name p hk hv => ?_, fun name p m hmatch hser => ?_,
    by decide⟩
  · simp [serializePeripheral, hk, hv]
  · cases hv : p.variant with
    | generic =>
      have hk : ¬ p.base.kind = PERIPHERAL_IBEACON := by
        rw [kindMatchesVariant, hv] at hmatch
        exact bne_iff_ne.mp hmatch
      rw [serializePeripheral, if_neg hk] at hser
      have hm : m = [("name", name), ("kind", p.base.kind),
          ("proximity", p.base.proximity), ("accuracy", formatFloat6 p.base.accuracy)] := by
        cases hser
        rfl
      subst hm
      refine ⟨by simp, by simp, by simp, by simp, formatFloat6_shape _, ?_, ?_⟩
      · intro uuid major minor hc
        cases hc
      · intro _hg
        refine ⟨?_, ?_, ?_⟩ <;> simp
    | ibeacon uuid major minor =>
      have hk : p.base.kind = PERIPHERAL_IBEACON := by
        rw [kindMatchesVariant, hv] at hmatch
        exact eq_of_beq hmatch
      rw [serializePeripheral, if_pos hk, hv] at hser
      have hm : m = [("name", name), ("kind", p.base.kind),
          ("proximity", p.base.proximity), ("accuracy", formatFloat6 p.base.accuracy),
          ("uuid", uuid), ("major", toString major), ("minor", toString minor)] := by
        cases hser
        rfl
      subst hm
      refine ⟨by simp, by simp, by simp, by simp, formatFloat6_shape _, ?_, ?_⟩
      · intro uuid' major' minor' hc
        cases hc
        refine ⟨by simp, by simp, by simp⟩
      · intro hc
        cases hc

/-- C5, witness: the ibeacon peripheral with accuracy 1.5 serializes to
a mapping carrying the six-digit accuracy and the uuid, major and minor
fields. -/
theorem c5_serialize_witness :
    ("accuracy", formatFloat6 ibeaconPeripheral.base.accuracy) ∈ mIbeacon ∧
    ("uuid", "U1") ∈ mIbeacon ∧ ("major", "1") ∈ mIbeacon ∧
    ("minor", "2") ∈ mIbeacon := by
  have h := c5_serialize.2.2.1 "t" ibeaconPeripheral mIbeacon (by decide) (by rfl)
  have h2 := h.2.2.2.2.2.1 "U1" 1 2 rfl
  exact ⟨h.2.2.2.1, h2.1, h2.2.1, h2.2.2⟩

theorem serialize_ok_length (name : String) (p : Option PeripheralVal)
    (m : List (String × String)) (h : serializePeripheral name p = .ok m) :
    4 ≤ m.length := by
  cases p with
  | none => cases h
  | some p =>
    rw [serializePeripheral] at h
    split at h
    · cases hv : p.variant with
      | ibeacon u ma mi =>
        rw [hv] at h
        cases h
        simp
      | generic =>
        rw [hv] at h
        cases h
    · cases h
      simp

theorem serialize_error_class (name : String) (p : Option PeripheralVal)
    (err : DeliveryError) (h : serializePeripheral name p = .error err) :
    err = .missedPeripheral ∨ ∃ k, err = .unableToSerialize k := by
  cases p with
  | none =>
    cases h
    exact Or.inl rfl
  | some p =>
    rw [serializePeripheral] at h
    split at h
    · cases hv : p.variant with
      | ibeacon u ma mi =>
        rw [hv] at h
        cases h
      | generic =>
        rw [hv] at h
        cases h
        exact Or.inr ⟨_, rfl⟩
    · cases h

theorem encodeRaw_data (kv : String × String) (rest : List (String × String)) :
    (encodeRaw (kv :: rest)).data = joinAmp ((kv :: rest).map pairStr) ++ ['&'] := by
  induction rest generalizing kv with
  | nil =>
    have h1 : "&".data = ['&'] := rfl
    have h2 : "".data = ([] : List Char) := rfl
    simp [encodeRaw, joinAmp, String.data_append, h1, h2]
  | cons kv2 rest2 ih =>
    have h1 : "&".data = ['&'] := rfl
    simp only [encodeRaw, String.data_append, h1] at ih ⊢
    rw [ih kv2]
    simp [joinAmp]

theorem encode_eq_joinAmp (kv : String × String) (rest : List (String × String)) :
    ∃ q, encode (kv :: rest) = some q ∧
      q.data = joinAmp ((kv :: rest).map pairStr) := by
  have hdata := encodeRaw_data kv rest
  refine ⟨String.mk ((encodeRaw (kv :: rest)).data.dropLast), ?_, ?_⟩
  · simp [encode, hdata]
  · show (encodeRaw (kv :: rest)).data.dropLast = _
    rw [hdata, List.dropLast_concat]

theorem encode_isSome_of_ne_nil (m : List (String × String)) (h : m ≠ []) :
    (encode m).isSome = true := by
  cases m with
  | nil => exact absurd rfl h
  | cons kv rest =>
    have hdata := encodeRaw_data kv rest
    simp [encode, hdata]

theorem mkRequest_error_class (env : Env) (m : List (String × String)) (e : Endpoint)
    (err : DeliveryError) (h : mkRequest env m e = .error err)
    (hsome : (encode m).isSome = true) :
    err = .emptyEndpointUrl ∨ ∃ s, err = .requestCreation s := by
  simp only [mkRequest] at h
  split at h
  · cases h
    exact Or.inl rfl
  · split at h
    · cases h
      exact Or.inr ⟨_, rfl⟩
    · split at h
      · cases h
      · split at h
        · rename_i henc
          rw [henc] at hsome
          simp at hsome
        · cases h

theorem mkRequest_ok_shape (env : Env) (m : List (String × String)) (e : Endpoint)
    (req : Request) (h : mkRequest env m e = .ok req) :
    e.url ≠ "" ∧ env.newRequestErr (upper e.method) e.url = none ∧
    ((upper e.method = "POST" ∧
       req = { method := upper e.method, url := e.url, rawQuery := "",
               headers := applyHeaders (setHeader [] "Content-Type" "application/json")
                 e.headers,
               body := some (jsonEncode m) }) ∨
     (upper e.method ≠ "POST" ∧ ∃ q, encode m = some q ∧
       req = { method := upper e.method, url := e.url, rawQuery := q,
               headers := applyHeaders [] e.headers, body := none })) := by
  simp only [mkRequest] at h
  split at h
  · cases h
  · rename_i hurl
    refine ⟨hurl, ?_⟩
    split at h
    · cases h
    · rename_i hnr
      refine ⟨hnr, ?_⟩
      split at h
      · rename_i hpost
        cases h
        exact Or.inl ⟨hpost, rfl⟩
      · rename_i hpost
        split at h
        · cases h
        · rename_i q henc
          cases h
          exact Or.inr ⟨hpost, q, henc, rfl⟩

theorem mem_applyHeaders (k v : String) (hs : List (String × String)) :
    ∀ base, (k, v) ∈ base → k ∉ hs.map (fun kv => canonicalKey kv.1) →
      (k, v) ∈ applyHeaders base hs := by
  induction hs with
  | nil => exact fun base hb _ => hb
  | cons h t ih =>
    intro base hb hn
    simp only [List.map_cons, List.mem_cons, not_or] at hn
    refine ih (setHeader base h.1 h.2) ?_ hn.2
    simp only [setHeader]
    refine List.mem_append_left _ ?_
    rw [List.mem_filter]
    exact ⟨hb, bne_iff_ne.mpr hn.1⟩

/-- C10: the trailing-separator trim of the query encoder is out of
bounds on an empty field mapping (modelled as the `none` result), but
serialization always produces a mapping with at least the four base
keys, so on every path the dispatcher actually takes the encoder
receives a non-empty mapping and succeeds — in particular no
single-delivery result ever carries the encoder-panic marker. -/
theorem c10_encode_safety :
    encode ([] : List (String × String)) = none ∧
    (∀ name p m, serializePeripheral name p = .ok m →
      4 ≤ m.length ∧ (encode m).isSome = true) ∧
    (∀ env name p sub, (sendSingle env name p sub).1 ≠ some .queryPanic) := by
  refine ⟨rfl, fun name p m h => ?_, fun env name p sub => ?_⟩
  · have hlen := serialize_ok_length name p m h
    have hne : m ≠ [] := by
      intro hc
      rw [hc] at hlen
      simp at hlen
    exact ⟨hlen, encode_isSome_of_ne_nil m hne⟩
  · cases hs : serializePeripheral name p with
    | error err =>
      have hcls := serialize_error_class name p err hs
      simp only [sendSingle, hs, ne_eq, Option.some.injEq]
      rcases hcls with h1 | ⟨k, h1⟩ <;> subst h1 <;> simp
    | ok m =>
      have hlen := serialize_ok_length name p m hs
      have hne : m ≠ [] := by
        intro hc
        rw [hc] at hlen
        simp at hlen
      have hsome := encode_isSome_of_ne_nil m hne
      cases he : sub.endpoint with
      | none => simp [sendSingle, hs, he]
      | some e =>
        cases hm : mkRequest env m e with
        | error err =>
          have hcls := mkRequest_error_class env m e err hm hsome
          simp only [sendSingle, hs, he, hm, ne_eq, Option.some.injEq]
          rcases hcls with h1 | ⟨s, h1⟩ <;> subst h1 <;> simp
        | ok req =>
          simp only [sendSingle, hs, he, hm]
          cases ht : env.transportErr req <;> simp [ht]

/-- C10, witness: the mapping of the generic peripheral has the four
base keys and encodes successfully. -/
theorem c10_encode_safety_witness :
    4 ≤ mGeneric.length ∧ (encode mGeneric).isSome = true :=
  c10_encode_safety.2.1 "t" (some genericPeripheral) mGeneric (by rfl)

/-- C8 (amended): for every deliverable subscriber the outbound request
uses the upper-cased endpoint method; when that method is POST the
request body is the JSON serialization of the field mapping and the
request carries `Content-Type: application/json` unless an
endpoint-configured header overrides it — endpoint headers are applied
after the default through `http.Header.Set`, whose keys are
canonicalized case-insensitively, so any endpoint header whose
canonical key is Content-Type replaces the default; for any other
method the request has no body and its raw query is the field mapping
as `key=value` pairs joined by single ampersands with keys
percent-escaped, values not escaped, and no trailing separator. -/
theorem c8_request_shape (env : Env) (name : String) (p : Option PeripheralVal)
    (sub : Subscriber) (e : Endpoint) (m : List (String × String)) (req : Request)
    (hser : serializePeripheral name p = .ok m)
    (hend : sub.endpoint = some e)
    (hreq : mkRequest env m e = .ok req) :
    (sendSingle env name p sub).2 = [req] ∧
    req.method = upper e.method ∧
    (upper e.method = "POST" →
      req.body = some (jsonEncode m) ∧
      ("Content-Type" ∉ e.headers.map (fun kv => canonicalKey kv.1) →
        ("Content-Type", "application/json") ∈ req.headers)) ∧
    (upper e.method ≠ "POST" →
      req.body = none ∧ req.rawQuery.data = joinAmp (m.map pairStr)) := by
  obtain ⟨hurl, hnr, hshape⟩ := mkRequest_ok_shape env m e req hreq
  refine ⟨by simp [sendSingle, hser, hend, hreq], ?_, ?_, ?_⟩
  · rcases hshape with ⟨hpost, hr⟩ | ⟨hpost, q, hq, hr⟩ <;> subst hr <;> rfl
  · intro hpost
    rcases hshape with ⟨_, hr⟩ | ⟨hnp, _, _, _⟩
    · subst hr
      refine ⟨rfl, fun hct => ?_⟩
      exact mem_applyHeaders "Content-Type" "application/json" e.headers
        (setHeader [] "Content-Type" "application/json") (by decide) hct
    · exact absurd hpost hnp
  · intro hpost
    rcases hshape with ⟨hp, _⟩ | ⟨_, q, hq, hr⟩
    · exact absurd hp hpost
    · subst hr
      refine ⟨rfl, ?_⟩
      have hlen := serialize_ok_length name p m hser
      cases m with
      | nil => simp at hlen
      | cons kv rest =>
        obtain ⟨q', hq', hdata⟩ := encode_eq_joinAmp kv rest
        rw [hq'] at hq
        cases hq
        exact hdata

/-- C8, counterexample to the claim as stated: a POST endpoint whose
configured headers set `content-type: text/plain` (lowercase key)
produces an outbound request whose only Content-Type header is
`text/plain` — `http.Header.Set` canonicalizes the key
case-insensitively, endpoint headers are applied after the default, and
the endpoint value replaces the `application/json` default, so the
request does not carry `Content-Type: application/json`. -/
theorem c8_counterexample :
    ((sendSingle okEnv "t" (some genericPeripheral) subPostOverride).2.map
      Request.headers) = [[("Content-Type", "text/plain")]] ∧
    (sendSingle okEnv "t" (some genericPeripheral) subPostOverride).1 = none := by
  exact ⟨rfl, rfl⟩

/-- C8, witness: the GET endpoint for the generic peripheral yields one
Transport call whose request carries the mapping in its query string and
no body. -/
theorem c8_request_shape_witness :
    (sendSingle okEnv "t" (some genericPeripheral) subGet).2 = [reqGet] ∧
    reqGet.method = upper getEndpoint.method ∧
    reqGet.body = none ∧ reqGet.rawQuery.data = joinAmp (mGeneric.map pairStr) := by
  have h := c8_request_shape okEnv "t" (some genericPeripheral) subGet getEndpoint
    mGeneric reqGet (by rfl) rfl (by rfl)
  have h4 := h.2.2.2 (by decide)
  exact ⟨h.1, h.2.1, h4.1, h4.2⟩

end Beagle
